import Mathlib

/-!
Verification development for the VaccX response pipeline (src/app.py).

The embedding models the code over `List Char` so that every operation is
directly executable by kernel reduction:

* Python string primitives used by the code (`strip`, `split`, `lower`,
  `startswith`, `split("\n", 1)`) are modelled character by character.
* `json.loads` is modelled by `json_loads`, a fuelled recursive-descent
  parser for the JSON fragment the program exchanges (null, booleans,
  numbers kept as their lexeme, strings with the simple escapes, arrays,
  objects); a parse succeeds only when the whole input is consumed, as in
  Python.
* `re.findall(r'\{.*?\}', s, re.DOTALL)` is modelled by `findObjects`,
  a left-to-right scan that, at each `{` met outside a match, takes the
  shortest extension up to the next `}` - exactly the non-greedy regex.
* The try/except block of `main` (answer cleaning, parsing, shape
  normalization) becomes `deFence`, `parsedOf`, `normShape`,
  `normalizeData` and `processAnswer`; errors are explicit values of
  `NormError`.  `Outcome.rendered` means the record sequence was handed
  to the rendering stage (rendering itself, pandas/HTML, is abstracted).
* The query building in `main` and the query decoding in `get_response`
  become `buildUserQuery` and `composeFields`; `runSubmission` models one
  Submit click: the no-data check, then the decoding (which in the code
  happens before the try/except, so its failures escape uncaught), then
  the response processing.
-/

/-- Python `str.strip` whitespace set (ASCII fragment). -/
def pyws (c : Char) : Bool :=
  c = ' ' || c = '\t' || c = '\n' || c = '\r' || c = '\x0b' || c = '\x0c'

/-- Left strip, as in Python `lstrip`. -/
def pyLstrip (cs : List Char) : List Char :=
  cs.dropWhile pyws

/-- Right strip, as in Python `rstrip`. -/
def pyRstrip (cs : List Char) : List Char :=
  (cs.reverse.dropWhile pyws).reverse

/-- Python `str.strip`: strip both ends. -/
def pyStrip (cs : List Char) : List Char :=
  pyRstrip (pyLstrip cs)

/-- Boolean list-prefix test. -/
def isPre : List Char → List Char → Bool
  | [], _ => true
  | _ :: _, [] => false
  | p :: ps, c :: cs => p = c && isPre ps cs

/-- ASCII lowercasing of one character, the fragment of Python `str.lower`
the program relies on. -/
def lowerAscii (c : Char) : Char :=
  if 'A' ≤ c && c ≤ 'Z' then Char.ofNat (c.toNat + 32) else c

/-- Python `str.lower` on the ASCII fragment. -/
def lowerAll (cs : List Char) : List Char :=
  cs.map lowerAscii

/-- Cons a character onto the first segment of a split result. -/
def consHead (c : Char) : List (List Char) → List (List Char)
  | [] => [[c]]
  | seg :: segs => (c :: seg) :: segs

/-- Python `str.split` with a three-character separator `[a, b, c]`
(used for both the fence delimiter and the field delimiter). -/
def splitOn3 (a b c : Char) : List Char → List (List Char)
  | x :: y :: z :: rest =>
    if x = a && y = b && z = c then [] :: splitOn3 a b c rest
    else consHead x (splitOn3 a b c (y :: z :: rest))
  | cs => [cs]

/-- Python `str.split` with a one-character separator. -/
def splitOn1 (a : Char) : List Char → List (List Char)
  | [] => [[]]
  | x :: rest =>
    if x = a then [] :: splitOn1 a rest else consHead x (splitOn1 a rest)

/-- The text after the first line break: Python `s.split("\n", 1)[1]`,
`none` when the string holds no line break (where Python raises
IndexError on the index `[1]`). -/
def afterFirstNl : List Char → Option (List Char)
  | [] => none
  | c :: rest => if c = '\n' then some rest else afterFirstNl rest

/-- JSON values as produced by `json.loads`; numbers keep their lexeme. -/
inductive JVal where
  | jnull : JVal
  | jbool : Bool → JVal
  | jnum : List Char → JVal
  | jstr : List Char → JVal
  | jarr : List JVal → JVal
  | jobj : List (List Char × JVal) → JVal
deriving Repr

/-- JSON whitespace accepted between tokens by `json.loads`. -/
def jws (c : Char) : Bool :=
  c = ' ' || c = '\t' || c = '\n' || c = '\r'

/-- Skip JSON whitespace. -/
def skipJws (cs : List Char) : List Char :=
  cs.dropWhile jws

/-- Decode one simple JSON string escape. -/
def escChar : Char → Option Char
  | 'n' => some '\n'
  | 't' => some '\t'
  | 'r' => some '\r'
  | 'b' => some '\x08'
  | 'f' => some '\x0c'
  | '"' => some '"'
  | '/' => some '/'
  | '\\' => some '\\'
  | _ => none

/-- Parse the body of a JSON string after the opening quote; returns the
decoded content and the rest after the closing quote. -/
def parseStrBody : List Char → Option (List Char × List Char)
  | [] => none
  | '"' :: rest => some ([], rest)
  | '\\' :: e :: rest =>
    match escChar e, parseStrBody rest with
    | some c, some (s, r) => some (c :: s, r)
    | _, _ => none
  | c :: rest =>
    match parseStrBody rest with
    | some (s, r) => some (c :: s, r)
    | none => none

/-- Longest digit run at the front. -/
def takeDigits (cs : List Char) : List Char × List Char :=
  (cs.takeWhile Char.isDigit, cs.dropWhile Char.isDigit)

/-- Parse the exponent tail of a JSON number (already past `e`/`E`). -/
def parseExpTail (cs : List Char) : Option (List Char × List Char) :=
  match cs with
  | '+' :: r =>
    match takeDigits r with
    | ([], _) => none
    | (ds, r') => some ('+' :: ds, r')
  | '-' :: r =>
    match takeDigits r with
    | ([], _) => none
    | (ds, r') => some ('-' :: ds, r')
  | _ =>
    match takeDigits cs with
    | ([], _) => none
    | (ds, r') => some (ds, r')

/-- Parse the fraction/exponent tail of a JSON number after the integer
part; returns the lexeme tail and the rest. -/
def parseNumTail (cs : List Char) : Option (List Char × List Char) :=
  match cs with
  | '.' :: r =>
    match takeDigits r with
    | ([], _) => none
    | (ds, r') =>
      match r' with
      | 'e' :: r2 =>
        match parseExpTail r2 with
        | some (es, r3) => some ('.' :: ds ++ 'e' :: es, r3)
        | none => none
      | 'E' :: r2 =>
        match parseExpTail r2 with
        | some (es, r3) => some ('.' :: ds ++ 'E' :: es, r3)
        | none => none
      | _ => some ('.' :: ds, r')
  | 'e' :: r2 =>
    match parseExpTail r2 with
    | some (es, r3) => some ('e' :: es, r3)
    | none => none
  | 'E' :: r2 =>
    match parseExpTail r2 with
    | some (es, r3) => some ('E' :: es, r3)
    | none => none
  | _ => some ([], cs)

/-- Parse a JSON number lexeme at the front of the input. -/
def parseNum (cs : List Char) : Option (List Char × List Char) :=
  match cs with
  | '-' :: r =>
    match takeDigits r with
    | ([], _) => none
    | (ds, r') =>
      match parseNumTail r' with
      | some (ts, r2) => some ('-' :: ds ++ ts, r2)
      | none => none
  | _ =>
    match takeDigits cs with
    | ([], _) => none
    | (ds, r') =>
      match parseNumTail r' with
      | some (ts, r2) => some (ds ++ ts, r2)
      | none => none

mutual

/-- Parse one JSON value (fuelled; the fuel only bounds nesting work and
is always supplied amply by `json_loads`). -/
def parseVal : Nat → List Char → Option (JVal × List Char)
  | 0, _ => none
  | fuel + 1, cs =>
    match skipJws cs with
    | [] => none
    | ch :: more =>
      if ch = '"' then
        match parseStrBody more with
        | some (s, r) => some (.jstr s, r)
        | none => none
      else if ch = '[' then
        match skipJws more with
        | ']' :: r2 => some (.jarr [], r2)
        | _ =>
          match parseElems fuel more with
          | some (vs, r2) => some (.jarr vs, r2)
          | none => none
      else if ch = '\x7b' then
        match skipJws more with
        | '\x7d' :: r2 => some (.jobj [], r2)
        | _ =>
          match parseMembers fuel more with
          | some (fs, r2) => some (.jobj fs, r2)
          | none => none
      else if ch = 'n' && isPre ['u', 'l', 'l'] more then
        some (.jnull, more.drop 3)
      else if ch = 't' && isPre ['r', 'u', 'e'] more then
        some (.jbool true, more.drop 3)
      else if ch = 'f' && isPre ['a', 'l', 's', 'e'] more then
        some (.jbool false, more.drop 4)
      else if ch = '-' || ch.isDigit then
        match parseNum (ch :: more) with
        | some (lit, r) => some (.jnum lit, r)
        | none => none
      else none

/-- Parse the comma-separated elements of a JSON array up to `]`. -/
def parseElems : Nat → List Char → Option (List JVal × List Char)
  | 0, _ => none
  | fuel + 1, cs =>
    match parseVal fuel cs with
    | none => none
    | some (v, r) =>
      match skipJws r with
      | ',' :: r2 =>
        match parseElems fuel r2 with
        | some (vs, r3) => some (v :: vs, r3)
        | none => none
      | ']' :: r2 => some ([v], r2)
      | _ => none

/-- Parse the members of a JSON object up to the closing brace. -/
def parseMembers : Nat → List Char → Option (List (List Char × JVal) × List Char)
  | 0, _ => none
  | fuel + 1, cs =>
    match skipJws cs with
    | '"' :: rest =>
      match parseStrBody rest with
      | none => none
      | some (k, r) =>
        match skipJws r with
        | ':' :: r2 =>
          match parseVal fuel r2 with
          | none => none
          | some (v, r3) =>
            match skipJws r3 with
            | ',' :: r4 =>
              match parseMembers fuel r4 with
              | some (fs, r5) => some ((k, v) :: fs, r5)
              | none => none
            | '\x7d' :: r4 => some ([(k, v)], r4)
            | _ => none
        | _ => none
    | _ => none

end

/-- Model of Python `json.loads`: parse one value and require that only
whitespace remains, otherwise the call raises `JSONDecodeError` (`none`). -/
def json_loads (cs : List Char) : Option JVal :=
  match parseVal (2 * cs.length + 2) cs with
  | some (v, rest) => if skipJws rest = [] then some v else none
  | none => none

/-- One step of the `re.findall` scan: `acc = none` while outside a match,
`some stack` (reversed characters, `{` included) while inside one. -/
def findObjsGo : List Char → Option (List Char) → List (List Char)
  | [], _ => []
  | c :: rest, none =>
    if c = '\x7b' then findObjsGo rest (some [c]) else findObjsGo rest none
  | c :: rest, some acc =>
    if c = '\x7d' then (c :: acc).reverse :: findObjsGo rest none
    else findObjsGo rest (some (c :: acc))

/-- Model of `re.findall(r'\{.*?\}', s, re.DOTALL)`. -/
def findObjects (cs : List Char) : List (List Char) :=
  findObjsGo cs none

/-- The errors the try/except block of `main` can see, by the raising
site: the tag-strip IndexError (line 177), the JSONDecodeError of an
individual fallback object (line 188), and the two explicit ValueErrors
(lines 187 and 201). -/
inductive NormError where
  | indexError : NormError
  | jsonDecodeError : NormError
  | noJsonObjects : NormError
  | unexpectedFormat : NormError
deriving DecidableEq, Repr

/-- The fence delimiter. -/
def bq : Char := '\x60'

/-- The fence delimiter as a list. -/
def fence3 : List Char := [bq, bq, bq]

/-- The language-tag token checked after de-fencing. -/
def jsonTok : List Char := ['j', 's', 'o', 'n']

/-- Lines 170-177 of `main`: strip, remove a markdown fence when at least
two fence boundaries exist, then strip a leading case-insensitive `json`
tag line; the tag strip indexes `[1]` into `split("\n", 1)` and raises
when the remaining text holds no line break. -/
def deFence (answer : List Char) : Except NormError (List Char) :=
  if isPre fence3 (pyStrip answer) then
    match splitOn3 bq bq bq (pyStrip answer) with
    | _ :: p1 :: _ :: _ =>
      if isPre jsonTok (lowerAll (pyStrip p1)) then
        match afterFirstNl (pyStrip p1) with
        | some rest => .ok (pyStrip rest)
        | none => .error .indexError
      else .ok (pyStrip p1)
    | _ => .ok (pyStrip answer)
  else .ok (pyStrip answer)

/-- Parse every extracted fallback object; the Python list comprehension
on line 188 raises at the first failure, so the whole batch is `none`. -/
def parseAll : List (List Char) → Option (List JVal)
  | [] => some []
  | o :: os =>
    match json_loads o with
    | none => none
    | some v =>
      match parseAll os with
      | some vs => some (v :: vs)
      | none => none

/-- Lines 179-188 of `main`: direct parse of the candidate, else regex
fallback; zero extracted objects is the explicit ValueError, a failing
individual object is the uncaught JSONDecodeError. -/
def parsedOf (c : List Char) : Except NormError JVal :=
  match json_loads c with
  | some v => .ok v
  | none =>
    match findObjects c with
    | [] => .error .noJsonObjects
    | os =>
      match parseAll os with
      | some vs => .ok (.jarr vs)
      | none => .error .jsonDecodeError

/-- The collection key recognized on line 194. -/
def adjuvantsKey : List Char := "Adjuvants".data

/-- Python dict lookup on the parsed object: the last binding of a key
wins, as in the dict `json.loads` builds. -/
def dictGet (k : List Char) : List (List Char × JVal) → Option JVal
  | [] => none
  | (k', v) :: rest =>
    match dictGet k rest with
    | some v' => some v'
    | none => if k' = k then some v else none

/-- Lines 190-201 of `main`: a dict with a list under `"Adjuvants"` is
unwrapped, any other dict is wrapped in a singleton list, a list is used
directly, anything else is the unexpected-format ValueError. -/
def normShape : JVal → Except NormError (List JVal)
  | .jobj fs =>
    match dictGet adjuvantsKey fs with
    | some (.jarr xs) => .ok xs
    | _ => .ok [.jobj fs]
  | .jarr xs => .ok xs
  | _ => .error .unexpectedFormat

/-- Parsing and shape normalization of a de-fenced candidate. -/
def candProcess (c : List Char) : Except NormError (List JVal) :=
  match parsedOf c with
  | .ok v => normShape v
  | .error e => .error e

/-- The record sequence `data` built by the try block of `main` from the
raw model answer, or the error that interrupts it. -/
def normalizeData (answer : List Char) : Except NormError (List JVal) :=
  match deFence answer with
  | .ok c => candProcess c
  | .error e => .error e

/-- The failures of `get_response`'s query decoding (lines 73-81): the
explicit ValueError when fewer than five ` | ` segments exist, and the
IndexError of `split(":")[1]` on a segment with no colon. -/
inductive DriverErr where
  | fieldsMissing : DriverErr
  | colonIndex : DriverErr
deriving DecidableEq, Repr

/-- What one Submit click displays. `rendered rows` means the record
sequence reached the rendering stage; `procError` is the except branch of
lines 233-235, which shows a message and the raw answer; `uncaught` is an
exception raised outside the try block, which no handler converts. -/
inductive Outcome where
  | noData : Outcome
  | uncaught : DriverErr → Outcome
  | rendered : List JVal → Outcome
  | procError : NormError → List Char → Outcome
deriving Repr

/-- Lines 141-147 of `main`: the query string is built unconditionally,
with no completeness or emptiness validation of the five fields. -/
def buildUserQuery (vt ap sf ps cp : List Char) : List Char :=
  "Vaccine Type: ".data ++ vt ++ " | Adjuvant Properties: ".data ++ ap ++
    " | Study Filter: ".data ++ sf ++ " | Pipeline: ".data ++ ps ++
    " | Clinical Phase: ".data ++ cp

/-- One field extraction of `get_response`: `segment.split(":")[1].strip()`;
`none` models the IndexError when the segment has no colon. -/
def extractField (seg : List Char) : Option (List Char) :=
  match splitOn1 ':' seg with
  | _ :: x :: _ => some (pyStrip x)
  | _ => none

/-- Lines 73-81 of `get_response`: split the user query on `" | "`, fail
when fewer than five parts exist, then extract the five field values. -/
def composeFields (uq : List Char) :
    Except DriverErr (List Char × List Char × List Char × List Char × List Char) :=
  match splitOn3 ' ' '|' ' ' uq with
  | p0 :: p1 :: p2 :: p3 :: p4 :: _ =>
    match extractField p0, extractField p1, extractField p2,
        extractField p3, extractField p4 with
    | some a, some b, some c, some d, some e => .ok (a, b, c, d, e)
    | _, _, _, _, _ => .error .colonIndex
  | _ => .error .fieldsMissing

/-- The try/except of lines 168-235: a normalized record sequence is
rendered; any error inside the block becomes the user-visible message
plus the raw answer, shown verbatim. -/
def processAnswer (answer : List Char) : Outcome :=
  match normalizeData answer with
  | .ok rows => .rendered rows
  | .error e => .procError e answer

/-- One Submit click of `main`: the empty-retrieval check runs first;
the query decoding of `get_response` runs before the try block, so its
errors escape uncaught; then the answer is processed. -/
def runSubmission (vt ap sf ps cp : List Char) (hasData : Bool)
    (answer : List Char) : Outcome :=
  if hasData = false then .noData
  else
    match composeFields (buildUserQuery vt ap sf ps cp) with
    | .error e => .uncaught e
    | .ok _ => processAnswer answer

/-! ### Helper notions used to state and prove the claims -/

/-- No occurrence of the pattern `[a, b, c]` inside the list. -/
def noTrip (a b c : Char) : List Char → Bool
  | [] => true
  | x :: rest => !(x = a && isPre [b, c] rest) && noTrip a b c rest

/-- No occurrence of the pattern `[a, b, c]` starting inside `xs` when
`xs` is followed by `ys`. -/
def okSeg (a b c : Char) : List Char → List Char → Bool
  | [], _ => true
  | x :: rest, ys => !(x = a && isPre [b, c] (rest ++ ys)) && okSeg a b c rest ys

/-- Prepend characters onto the first segment of a split result. -/
def consSeg (xs : List Char) : List (List Char) → List (List Char)
  | [] => [xs]
  | s :: ss => (xs ++ s) :: ss

/-- The claim's fence wrapping with a `json` language-tag line. -/
def fenceTag (t : List Char) : List Char :=
  [bq, bq, bq] ++ ['j', 's', 'o', 'n', '\n'] ++ t ++ ['\n'] ++ [bq, bq, bq]

/-- The claim's fence wrapping without a language tag. -/
def fenceNoTag (t : List Char) : List Char :=
  [bq, bq, bq] ++ ['\n'] ++ t ++ ['\n'] ++ [bq, bq, bq]

/-- The keys of a record (a parsed JSON object); non-objects carry none. -/
def keysOf : JVal → List (List Char)
  | .jobj fs => fs.map Prod.fst
  | _ => []

/-- The three canonical output keys, in the order of the prompt contract. -/
def canonicalKeys : List (List Char) :=
  ["Adjuvant Name".data, "Score".data, "Insights".data]

/-- A record that is an object carrying exactly the three canonical keys. -/
def isCanonicalRecord : JVal → Bool
  | .jobj fs => decide (fs.map Prod.fst = canonicalKeys)
  | _ => false

/-! ### Properties of the Python string primitives -/

theorem pyLstrip_cons_nonws {c : Char} (h : pyws c = false) (cs : List Char) :
    pyLstrip (c :: cs) = c :: cs := by
  simp [pyLstrip, List.dropWhile_cons, h]

theorem pyLstrip_cons_ws {c : Char} (h : pyws c = true) (cs : List Char) :
    pyLstrip (c :: cs) = pyLstrip cs := by
  simp [pyLstrip, List.dropWhile_cons, h]

theorem pyRstrip_snoc_nonws {d : Char} (h : pyws d = false) (xs : List Char) :
    pyRstrip (xs ++ [d]) = xs ++ [d] := by
  simp [pyRstrip, List.reverse_append, List.dropWhile_cons, h]

theorem pyRstrip_snoc_ws {d : Char} (h : pyws d = true) (xs : List Char) :
    pyRstrip (xs ++ [d]) = pyRstrip xs := by
  simp [pyRstrip, List.reverse_append, List.dropWhile_cons, h]

theorem pyRstrip_eq_nil_iff {xs : List Char} :
    pyRstrip xs = [] ↔ ∀ c ∈ xs, pyws c = true := by
  simp [pyRstrip, List.dropWhile_eq_nil_iff]

theorem pyLstrip_eq_nil_iff {xs : List Char} :
    pyLstrip xs = [] ↔ ∀ c ∈ xs, pyws c = true := by
  simp [pyLstrip, List.dropWhile_eq_nil_iff]

theorem pyRstrip_append_of_ne_nil {B : List Char} (h : pyRstrip B ≠ [])
    (A : List Char) : pyRstrip (A ++ B) = A ++ pyRstrip B := by
  have hB : (List.dropWhile pyws B.reverse).isEmpty = false := by
    cases hEmp : (List.dropWhile pyws B.reverse).isEmpty
    · rfl
    · exact absurd (by simp [pyRstrip, List.isEmpty_iff.mp hEmp]) h
  simp [pyRstrip, List.reverse_append, List.dropWhile_append, hB]

theorem pyRstrip_append_of_nil {B : List Char} (h : pyRstrip B = [])
    (A : List Char) : pyRstrip (A ++ B) = pyRstrip A := by
  have hB : (List.dropWhile pyws B.reverse).isEmpty = true := by
    have : List.dropWhile pyws B.reverse = [] := by
      have := congrArg List.reverse h
      simpa [pyRstrip] using this
    simp [this]
  simp [pyRstrip, List.reverse_append, List.dropWhile_append, hB]

theorem pyRstrip_cons (c : Char) (xs : List Char) :
    pyRstrip (c :: xs) =
      if pyRstrip xs = [] then (if pyws c then [] else [c])
      else c :: pyRstrip xs := by
  have hc : (c :: xs) = [c] ++ xs := rfl
  by_cases hnil : pyRstrip xs = []
  · rw [hc, pyRstrip_append_of_nil hnil, if_pos hnil]
    by_cases hw : pyws c = true
    · simp [pyRstrip, List.dropWhile, hw]
    · simp only [Bool.not_eq_true] at hw
      simp [pyRstrip, List.dropWhile, hw]
  · rw [hc, pyRstrip_append_of_ne_nil hnil, if_neg hnil]
    rfl

theorem dropWhile_self_idem (p : Char → Bool) (l : List Char) :
    List.dropWhile p (List.dropWhile p l) = List.dropWhile p l := by
  induction l with
  | nil => rfl
  | cons c cs ih =>
    by_cases h : p c = true
    · simp [List.dropWhile_cons, h, ih]
    · simp only [Bool.not_eq_true] at h
      simp [List.dropWhile_cons, h]

theorem pyRstrip_idem (xs : List Char) : pyRstrip (pyRstrip xs) = pyRstrip xs := by
  simp [pyRstrip, dropWhile_self_idem]

theorem pyLstrip_pyRstrip_comm (t : List Char) :
    pyLstrip (pyRstrip t) = pyRstrip (pyLstrip t) := by
  induction t with
  | nil => rfl
  | cons c cs ih =>
    rw [pyRstrip_cons]
    by_cases hc : pyws c = true
    · by_cases hnil : pyRstrip cs = []
      · have hl : pyLstrip cs = [] :=
          pyLstrip_eq_nil_iff.mpr (pyRstrip_eq_nil_iff.mp hnil)
        rw [if_pos hnil, if_pos hc, pyLstrip_cons_ws hc, hl]
        rfl
      · simp only [if_neg hnil]
        rw [pyLstrip_cons_ws hc, pyLstrip_cons_ws hc, ih]
    · have hc' : pyws c = false := by simpa using hc
      by_cases hnil : pyRstrip cs = []
      · simp only [if_pos hnil, if_neg (by simp [hc'] : ¬pyws c = true)]
        rw [pyLstrip_cons_nonws hc', pyLstrip_cons_nonws hc']
        rw [show (c :: cs) = [c] ++ cs from rfl, pyRstrip_append_of_nil hnil]
        simp [pyRstrip, List.dropWhile, hc']
      · simp only [if_neg hnil]
        rw [pyLstrip_cons_nonws hc', pyLstrip_cons_nonws hc']
        rw [show (c :: cs) = [c] ++ cs from rfl, pyRstrip_append_of_ne_nil hnil]
        rfl

theorem pyStrip_pyRstrip (t : List Char) : pyStrip (pyRstrip t) = pyStrip t := by
  unfold pyStrip
  rw [pyLstrip_pyRstrip_comm, pyRstrip_idem]

theorem pyRstrip_decomp (X : List Char) : ∃ w, X = pyRstrip X ++ w := by
  refine ⟨(List.takeWhile pyws X.reverse).reverse, ?_⟩
  have h := List.takeWhile_append_dropWhile pyws X.reverse
  calc X = X.reverse.reverse := (List.reverse_reverse X).symm
    _ = (List.takeWhile pyws X.reverse ++ List.dropWhile pyws X.reverse).reverse := by
        rw [h]
    _ = pyRstrip X ++ (List.takeWhile pyws X.reverse).reverse := by
        rw [List.reverse_append]; rfl

theorem pyLstrip_append_of_nil {A : List Char} (h : pyLstrip A = [])
    (B : List Char) : pyLstrip (A ++ B) = pyLstrip B := by
  have hA : (List.dropWhile pyws A).isEmpty = true := by
    simpa [pyLstrip] using congrArg List.isEmpty h
  simp [pyLstrip, List.dropWhile_append, hA]

theorem pyLstrip_append_of_ne_nil {A : List Char} (h : pyLstrip A ≠ [])
    (B : List Char) : pyLstrip (A ++ B) = pyLstrip A ++ B := by
  have hA : (List.dropWhile pyws A).isEmpty = false := by
    cases hEmp : (List.dropWhile pyws A).isEmpty
    · rfl
    · exact absurd (by simpa [pyLstrip] using List.isEmpty_iff.mp hEmp) h
  simp [pyLstrip, List.dropWhile_append, hA]

theorem pyStrip_cons_ws {c : Char} (h : pyws c = true) (t : List Char) :
    pyStrip (c :: t) = pyStrip t := by
  unfold pyStrip
  rw [pyLstrip_cons_ws h]

theorem pyStrip_snoc_ws {d : Char} (h : pyws d = true) (t : List Char) :
    pyStrip (t ++ [d]) = pyStrip t := by
  unfold pyStrip
  by_cases hnil : pyLstrip t = []
  · rw [pyLstrip_append_of_nil hnil, hnil]
    have hd : pyLstrip [d] = [] := by simp [pyLstrip, List.dropWhile, h]
    rw [hd]
  · rw [pyLstrip_append_of_ne_nil hnil, pyRstrip_snoc_ws h]

/-! ### Prefix-test lemmas -/

theorem isPre_append_left (ps ys : List Char) : isPre ps (ps ++ ys) = true := by
  induction ps with
  | nil => rfl
  | cons p pt ih => simp [isPre, ih]

theorem isPre_extend {ps : List Char} :
    ∀ {xs : List Char}, isPre ps xs = true → ∀ ys, isPre ps (xs ++ ys) = true := by
  induction ps with
  | nil => intro xs _ ys; rfl
  | cons p pt ih =>
    intro xs h ys
    cases xs with
    | nil => exact absurd h (by simp [isPre])
    | cons x xt =>
      simp only [isPre, List.cons_append, Bool.and_eq_true, decide_eq_true_eq] at h ⊢
      exact ⟨h.1, ih h.2 ys⟩

theorem isPre_of_length_le {ps : List Char} :
    ∀ {xs : List Char} (ys : List Char), ps.length ≤ xs.length →
      isPre ps (xs ++ ys) = isPre ps xs := by
  induction ps with
  | nil => intro xs ys _; rfl
  | cons p pt ih =>
    intro xs ys h
    cases xs with
    | nil => simp at h
    | cons x xt =>
      have hle : pt.length ≤ xt.length := by simp at h; omega
      show (decide (p = x) && isPre pt (xt ++ ys)) = (decide (p = x) && isPre pt xt)
      rw [ih ys hle]

/-! ### Occurrence lemmas for the split separators -/

theorem noTrip_tail {a b c x : Char} {rest : List Char}
    (h : noTrip a b c (x :: rest) = true) : noTrip a b c rest = true := by
  simp only [noTrip, Bool.and_eq_true] at h
  exact h.2

theorem noTrip_head {a b c x : Char} {rest : List Char}
    (h : noTrip a b c (x :: rest) = true) :
    (decide (x = a) && isPre [b, c] rest) = false := by
  simp only [noTrip, Bool.and_eq_true, Bool.not_eq_true'] at h
  exact h.1

theorem noTrip_append_intro (a b c : Char) :
    ∀ (A B : List Char), (∀ x ∈ A, x ≠ a) → noTrip a b c B = true →
      noTrip a b c (A ++ B) = true := by
  intro A
  induction A with
  | nil => intro B _ hB; simpa using hB
  | cons x At ih =>
    intro B hA hB
    have hx : ¬x = a := hA x (by simp)
    simp only [List.cons_append, noTrip, Bool.and_eq_true, Bool.not_eq_true']
    exact ⟨by simp [hx], ih B (fun y hy => hA y (by simp [hy])) hB⟩

theorem noTrip_append_left (a b c : Char) :
    ∀ (A B : List Char), noTrip a b c (A ++ B) = true → noTrip a b c A = true := by
  intro A
  induction A with
  | nil => intro B _; rfl
  | cons x At ih =>
    intro B h
    rw [List.cons_append] at h
    have h1 := noTrip_head h
    have h2 := ih B (noTrip_tail h)
    simp only [noTrip, Bool.and_eq_true, Bool.not_eq_true']
    refine ⟨?_, h2⟩
    cases hxa : decide (x = a) with
    | false => simp
    | true =>
      cases hpre : isPre [b, c] At with
      | false => simp
      | true =>
        have hext := isPre_extend hpre B
        rw [hxa, hext] at h1
        exact absurd h1 (by simp)

theorem noTrip_snoc (a b c : Char) :
    ∀ (t : List Char) (d : Char), noTrip a b c t = true →
      d ≠ a → d ≠ b → d ≠ c → noTrip a b c (t ++ [d]) = true := by
  intro t
  induction t with
  | nil =>
    intro d _ hda _ _
    simp [noTrip, isPre, hda]
  | cons x t' ih =>
    intro d h hda hdb hdc
    have htail := ih d (noTrip_tail h) hda hdb hdc
    have hhead := noTrip_head h
    simp only [List.cons_append, noTrip, Bool.and_eq_true, Bool.not_eq_true']
    refine ⟨?_, htail⟩
    cases hxa : decide (x = a) with
    | false => simp
    | true =>
      have hpre : isPre [b, c] (t' ++ [d]) = false := by
        cases t' with
        | nil => simp [isPre]
        | cons u t'' =>
          cases t'' with
          | nil =>
            simp [isPre]
            intro _ h2
            exact hdc h2.symm
          | cons v t3 =>
            have hlen : ([b, c] : List Char).length ≤ (u :: v :: t3).length := by
              simp
            rw [isPre_of_length_le [d] hlen]
            rw [hxa] at hhead
            simpa using hhead
      simp [hpre]

theorem isPre_false_of_noTrip {a b c : Char} {s : List Char}
    (h : noTrip a b c s = true) : isPre [a, b, c] s = false := by
  cases s with
  | nil => rfl
  | cons x t =>
    have hh := noTrip_head h
    cases hax : decide (a = x) with
    | false => simp [isPre, hax]
    | true =>
      have hx : decide (x = a) = true := by
        simp only [decide_eq_true_eq] at hax ⊢
        exact hax.symm
      rw [hx] at hh
      simp only [Bool.true_and] at hh
      simp [isPre, hax, hh]

theorem noTrip_dropWhile (a b c : Char) (p : Char → Bool) :
    ∀ (t : List Char), noTrip a b c t = true →
      noTrip a b c (t.dropWhile p) = true := by
  intro t
  induction t with
  | nil => intro h; exact h
  | cons x t' ih =>
    intro h
    rw [List.dropWhile_cons]
    by_cases hp : p x = true
    · rw [if_pos hp]; exact ih (noTrip_tail h)
    · rw [if_neg hp]; exact h

theorem noTrip_pyStrip (a b c : Char) {t : List Char}
    (h : noTrip a b c t = true) : noTrip a b c (pyStrip t) = true := by
  have h1 : noTrip a b c (pyLstrip t) = true := noTrip_dropWhile a b c pyws t h
  obtain ⟨w, hw⟩ := pyRstrip_decomp (pyLstrip t)
  have h2 : noTrip a b c (pyRstrip (pyLstrip t) ++ w) = true := by
    rw [← hw]; exact h1
  unfold pyStrip
  exact noTrip_append_left a b c _ w h2

theorem okSeg_nil_right (a b c : Char) :
    ∀ (xs : List Char), okSeg a b c xs [] = noTrip a b c xs := by
  intro xs
  induction xs with
  | nil => rfl
  | cons x xt ih => simp [okSeg, noTrip, List.append_nil, ih]

theorem okSeg_of_not_mem_mid (a b c : Char) :
    ∀ (xs ys : List Char), (∀ x ∈ xs, x ≠ b) → isPre [b] ys = false →
      okSeg a b c xs ys = true := by
  intro xs
  induction xs with
  | nil => intro ys _ _; rfl
  | cons x xt ih =>
    intro ys hx hy
    simp only [okSeg, Bool.and_eq_true, Bool.not_eq_true']
    refine ⟨?_, ih ys (fun y hy' => hx y (by simp [hy'])) hy⟩
    have hpre : isPre [b, c] (xt ++ ys) = false := by
      cases xt with
      | nil =>
        cases ys with
        | nil => rfl
        | cons y yt =>
          simp only [List.nil_append]
          simp [isPre] at hy
          simp [isPre, hy]
      | cons u ut =>
        have hub : ¬u = b := hx u (by simp)
        simp [isPre]
        intro h'
        exact absurd h'.symm hub
    simp [hpre]

theorem okSeg_snoc (a b c : Char) :
    ∀ (xs : List Char) (d : Char) (ys : List Char),
      noTrip a b c (xs ++ [d]) = true → d ≠ a → d ≠ b →
      okSeg a b c (xs ++ [d]) ys = true := by
  intro xs
  induction xs with
  | nil =>
    intro d ys _ hda _
    simp [okSeg, hda]
  | cons x xt ih =>
    intro d ys h hda hdb
    rw [List.cons_append] at h ⊢
    have htail := ih d ys (noTrip_tail h) hda hdb
    have hhead := noTrip_head h
    simp only [okSeg, Bool.and_eq_true, Bool.not_eq_true']
    refine ⟨?_, htail⟩
    cases hxa : decide (x = a) with
    | false => simp
    | true =>
      have hpre : isPre [b, c] (xt ++ d :: ys) = false := by
        cases xt with
        | nil =>
          simp [isPre]
          intro h'
          exact absurd h'.symm hdb
        | cons u ut =>
          have hassoc : (u :: ut) ++ d :: ys = ((u :: ut) ++ [d]) ++ ys := by
            simp
          rw [hassoc]
          have hlen : ([b, c] : List Char).length ≤ ((u :: ut) ++ [d]).length := by
            simp
          rw [isPre_of_length_le ys hlen]
          rw [hxa] at hhead
          simpa using hhead
      simp [hpre]

/-! ### Structure of the Python split operations -/

theorem consHead_ne_nil (c : Char) (l : List (List Char)) : consHead c l ≠ [] := by
  cases l <;> simp [consHead]

theorem splitOn3_ne_nil (a b c : Char) (cs : List Char) :
    splitOn3 a b c cs ≠ [] := by
  induction cs using splitOn3.induct a b c with
  | case1 x y z rest hcond ih => simp [splitOn3, hcond]
  | case2 x y z rest hcond ih =>
    rw [splitOn3, if_neg hcond]
    exact consHead_ne_nil x _
  | case3 cs hne =>
    rcases cs with _ | ⟨x, _ | ⟨y, _ | ⟨z, rest⟩⟩⟩
    · simp [splitOn3]
    · simp [splitOn3]
    · simp [splitOn3]
    · exact (hne x y z rest rfl).elim

theorem splitOn3_short (a b c : Char) {cs : List Char} (h : cs.length < 3) :
    splitOn3 a b c cs = [cs] := by
  rcases cs with _ | ⟨x, _ | ⟨y, _ | ⟨z, rest⟩⟩⟩
  · rfl
  · rfl
  · rfl
  · simp only [List.length_cons] at h
    omega

theorem splitOn3_cons_sep (a b c : Char) (rest : List Char) :
    splitOn3 a b c (a :: b :: c :: rest) = [] :: splitOn3 a b c rest := by
  simp [splitOn3]

theorem consHead_consSeg (x : Char) (xs : List Char) {l : List (List Char)}
    (h : l ≠ []) : consHead x (consSeg xs l) = consSeg (x :: xs) l := by
  cases l with
  | nil => exact absurd rfl h
  | cons s ss => rfl

theorem splitOn3_append (a b c : Char) :
    ∀ (xs ys : List Char), okSeg a b c xs ys = true →
      splitOn3 a b c (xs ++ ys) = consSeg xs (splitOn3 a b c ys) := by
  intro xs
  induction xs with
  | nil =>
    intro ys _
    cases h3 : splitOn3 a b c ys with
    | nil => exact absurd h3 (splitOn3_ne_nil a b c ys)
    | cons s ss =>
      rw [List.nil_append, h3]
      simp [consSeg]
  | cons x xt ih =>
    intro ys hok
    simp only [okSeg, Bool.and_eq_true, Bool.not_eq_true'] at hok
    obtain ⟨hx, hrest⟩ := hok
    rcases hl : xt ++ ys with _ | ⟨u, _ | ⟨v, w⟩⟩
    · have hxt : xt = [] := by
        cases xt with
        | nil => rfl
        | cons _ _ => simp at hl
      have hys : ys = [] := by
        rw [hxt] at hl
        simpa using hl
      rw [hxt, hys]
      simp [splitOn3, consSeg]
    · have hlen2 : ((x :: xt) ++ ys).length = 2 := by
        have := congrArg List.length hl
        simp only [List.length_append] at this
        simp [this]
      have hshort : splitOn3 a b c ((x :: xt) ++ ys) = [(x :: xt) ++ ys] :=
        splitOn3_short a b c (by omega)
      have hys : ys.length < 3 := by
        have := congrArg List.length hl
        simp only [List.length_append] at this
        simp at this
        omega
      rw [hshort, splitOn3_short a b c hys]
      simp [consSeg]
    · have hstep : (x :: xt) ++ ys = x :: u :: v :: w := by
        simp [hl]
      rw [hstep]
      have e1 : decide (u = b) = decide (b = u) := decide_eq_decide.mpr eq_comm
      have e2 : decide (v = c) = decide (c = v) := decide_eq_decide.mpr eq_comm
      have hcond : (decide (x = a) && decide (u = b) && decide (v = c)) = false := by
        cases hxa : decide (x = a) with
        | false => simp [hxa]
        | true =>
          rw [hl, hxa] at hx
          simp only [Bool.true_and] at hx
          have hx2 : (decide (b = u) && decide (c = v)) = false := by
            have : isPre [b, c] (u :: v :: w) =
                (decide (b = u) && (decide (c = v) && true)) := rfl
            rw [this] at hx
            simpa using hx
          rw [e1, e2]
          simp only [hxa, Bool.true_and]
          exact hx2
      rw [splitOn3, if_neg (by simp [hcond] : ¬(decide (x = a) && decide (u = b) && decide (v = c)) = true)]
      rw [← hl, ih ys hrest]
      exact consHead_consSeg x xt (splitOn3_ne_nil a b c ys)

theorem splitOn1_ne_nil (a : Char) (cs : List Char) : splitOn1 a cs ≠ [] := by
  induction cs with
  | nil => simp [splitOn1]
  | cons x rest ih =>
    by_cases h : x = a
    · simp [splitOn1, h]
    · rw [splitOn1, if_neg h]
      exact consHead_ne_nil x _

theorem splitOn1_cons_sep (a : Char) (rest : List Char) :
    splitOn1 a (a :: rest) = [] :: splitOn1 a rest := by
  simp [splitOn1]

theorem splitOn1_append (a : Char) :
    ∀ (xs ys : List Char), (∀ x ∈ xs, x ≠ a) →
      splitOn1 a (xs ++ ys) = consSeg xs (splitOn1 a ys) := by
  intro xs
  induction xs with
  | nil =>
    intro ys _
    cases h1 : splitOn1 a ys with
    | nil => exact absurd h1 (splitOn1_ne_nil a ys)
    | cons s ss =>
      rw [List.nil_append, h1]
      simp [consSeg]
  | cons x xt ih =>
    intro ys hx
    have hxa : ¬x = a := hx x (by simp)
    rw [List.cons_append, splitOn1, if_neg hxa]
    rw [ih ys (fun y hy => hx y (by simp [hy]))]
    exact consHead_consSeg x xt (splitOn1_ne_nil a ys)

/-! ### De-fencing characterization -/

theorem pyStrip_fenced (X : List Char) :
    pyStrip ([bq, bq, bq] ++ X ++ [bq, bq, bq]) =
      [bq, bq, bq] ++ X ++ [bq, bq, bq] := by
  have h1 : [bq, bq, bq] ++ X ++ [bq, bq, bq] =
      bq :: ([bq, bq] ++ X ++ [bq, bq, bq]) := by simp
  have h2 : [bq, bq, bq] ++ X ++ [bq, bq, bq] =
      ([bq, bq, bq] ++ X ++ [bq, bq]) ++ [bq] := by simp
  unfold pyStrip
  rw [h1, pyLstrip_cons_nonws (by decide), ← h1, h2,
    pyRstrip_snoc_nonws (by decide), ← h2]

theorem deFence_fenceTag {t : List Char} (hnt : noTrip bq bq bq t = true)
    (hne : pyRstrip t ≠ []) : deFence (fenceTag t) = .ok (pyStrip t) := by
  have hwrap : fenceTag t =
      [bq, bq, bq] ++ (['j', 's', 'o', 'n', '\n'] ++ (t ++ ['\n'])) ++ [bq, bq, bq] := by
    simp [fenceTag]
  have hstrip : pyStrip (fenceTag t) = fenceTag t := by
    rw [hwrap, pyStrip_fenced]
  have hpre : isPre fence3 (fenceTag t) = true := by
    have h : fenceTag t =
        fence3 ++ (['j', 's', 'o', 'n', '\n'] ++ (t ++ ('\n' :: [bq, bq, bq]))) := by
      simp [fenceTag, fence3]
    rw [h]
    exact isPre_append_left fence3 _
  have hok : okSeg bq bq bq (['j', 's', 'o', 'n', '\n'] ++ (t ++ ['\n'])) [bq, bq, bq] = true := by
    have hassoc : ['j', 's', 'o', 'n', '\n'] ++ (t ++ ['\n']) =
        (['j', 's', 'o', 'n', '\n'] ++ t) ++ ['\n'] := by
      simp [List.append_assoc]
    rw [hassoc]
    apply okSeg_snoc
    · rw [List.append_assoc]
      apply noTrip_append_intro
      · intro x hx
        simp at hx
        rcases hx with rfl | rfl | rfl | rfl | rfl <;> decide
      · exact noTrip_snoc bq bq bq t '\n' hnt (by decide) (by decide) (by decide)
    · decide
    · decide
  have hsplit : splitOn3 bq bq bq (fenceTag t) =
      [[], ['j', 's', 'o', 'n', '\n'] ++ (t ++ ['\n']), []] := by
    have hform : fenceTag t =
        bq :: bq :: bq :: ((['j', 's', 'o', 'n', '\n'] ++ (t ++ ['\n'])) ++ [bq, bq, bq]) := by
      simp [fenceTag]
    rw [hform, splitOn3_cons_sep]
    rw [splitOn3_append bq bq bq _ _ hok]
    have h3 : splitOn3 bq bq bq [bq, bq, bq] = [[], []] := by
      rw [show ([bq, bq, bq] : List Char) = bq :: bq :: bq :: [] from rfl,
        splitOn3_cons_sep]
      rfl
    rw [h3]
    simp [consSeg]
  have hmid : pyStrip (['j', 's', 'o', 'n', '\n'] ++ (t ++ ['\n'])) =
      ['j', 's', 'o', 'n', '\n'] ++ pyRstrip t := by
    unfold pyStrip
    have hl : pyLstrip (['j', 's', 'o', 'n', '\n'] ++ (t ++ ['\n'])) =
        ['j', 's', 'o', 'n', '\n'] ++ (t ++ ['\n']) := by
      show pyLstrip ('j' :: (['s', 'o', 'n', '\n'] ++ (t ++ ['\n']))) = _
      rw [pyLstrip_cons_nonws (by decide)]
      simp
    rw [hl]
    have hr1 : pyRstrip (t ++ ['\n']) = pyRstrip t := pyRstrip_snoc_ws (by decide) t
    rw [pyRstrip_append_of_ne_nil (by rw [hr1]; exact hne), hr1]
  have htag : isPre jsonTok (lowerAll (['j', 's', 'o', 'n', '\n'] ++ pyRstrip t)) = true := by
    show isPre jsonTok
      (lowerAll ('j' :: 's' :: 'o' :: 'n' :: '\n' :: pyRstrip t)) = true
    simp [jsonTok, lowerAll, isPre, lowerAscii]
  have hnl : afterFirstNl (['j', 's', 'o', 'n', '\n'] ++ pyRstrip t) = some (pyRstrip t) := by
    show afterFirstNl ('j' :: 's' :: 'o' :: 'n' :: '\n' :: pyRstrip t) = _
    simp [afterFirstNl]
  unfold deFence
  rw [hstrip, hpre, hsplit]
  simp only [if_true]
  rw [hmid, htag, hnl]
  simp only [if_true]
  rw [pyStrip_pyRstrip]

theorem deFence_fenceNoTag {t : List Char} (hnt : noTrip bq bq bq t = true)
    (hjson : isPre jsonTok (lowerAll (pyStrip t)) = false) :
    deFence (fenceNoTag t) = .ok (pyStrip t) := by
  have hwrap : fenceNoTag t =
      [bq, bq, bq] ++ (['\n'] ++ (t ++ ['\n'])) ++ [bq, bq, bq] := by
    simp [fenceNoTag]
  have hstrip : pyStrip (fenceNoTag t) = fenceNoTag t := by
    rw [hwrap, pyStrip_fenced]
  have hpre : isPre fence3 (fenceNoTag t) = true := by
    have h : fenceNoTag t =
        fence3 ++ ('\n' :: (t ++ ('\n' :: [bq, bq, bq]))) := by
      simp [fenceNoTag, fence3]
    rw [h]
    exact isPre_append_left fence3 _
  have hok : okSeg bq bq bq (['\n'] ++ (t ++ ['\n'])) [bq, bq, bq] = true := by
    have hassoc : ['\n'] ++ (t ++ ['\n']) = (['\n'] ++ t) ++ ['\n'] := by
      simp [List.append_assoc]
    rw [hassoc]
    apply okSeg_snoc
    · rw [List.append_assoc]
      apply noTrip_append_intro
      · intro x hx
        simp at hx
        rw [hx]; decide
      · exact noTrip_snoc bq bq bq t '\n' hnt (by decide) (by decide) (by decide)
    · decide
    · decide
  have hsplit : splitOn3 bq bq bq (fenceNoTag t) =
      [[], ['\n'] ++ (t ++ ['\n']), []] := by
    have hform : fenceNoTag t =
        bq :: bq :: bq :: ((['\n'] ++ (t ++ ['\n'])) ++ [bq, bq, bq]) := by
      simp [fenceNoTag]
    rw [hform, splitOn3_cons_sep]
    rw [splitOn3_append bq bq bq _ _ hok]
    have h3 : splitOn3 bq bq bq [bq, bq, bq] = [[], []] := by
      rw [show ([bq, bq, bq] : List Char) = bq :: bq :: bq :: [] from rfl,
        splitOn3_cons_sep]
      rfl
    rw [h3]
    simp [consSeg]
  have hmid : pyStrip (['\n'] ++ (t ++ ['\n'])) = pyStrip t := by
    show pyStrip ('\n' :: (t ++ ['\n'])) = pyStrip t
    rw [pyStrip_cons_ws (by decide), pyStrip_snoc_ws (by decide)]
  unfold deFence
  rw [hstrip, hpre, hsplit]
  simp only [if_true]
  rw [hmid, hjson]
  simp only [Bool.false_eq_true, if_false]

theorem deFence_plain {t : List Char} (hnt : noTrip bq bq bq t = true) :
    deFence t = .ok (pyStrip t) := by
  have h1 : isPre fence3 (pyStrip t) = false := by
    have h2 := isPre_false_of_noTrip (noTrip_pyStrip bq bq bq hnt)
    simpa [fence3] using h2
  unfold deFence
  rw [h1]
  simp

theorem normalizeData_of_deFence {ans c : List Char} (h : deFence ans = .ok c) :
    normalizeData ans = candProcess c := by
  unfold normalizeData
  rw [h]

/-! ### Pipeline-stepping lemmas -/

theorem afterFirstNl_none_of_not_mem {cs : List Char} (h : '\n' ∉ cs) :
    afterFirstNl cs = none := by
  induction cs with
  | nil => rfl
  | cons c rest ih =>
    have hc : ¬c = '\n' := fun hc => h (by rw [hc]; exact List.mem_cons_self _ _)
    unfold afterFirstNl
    rw [if_neg hc]
    exact ih (fun hm => h (List.mem_cons_of_mem c hm))

theorem candProcess_arr {c : List Char} {xs : List JVal}
    (h : json_loads c = some (.jarr xs)) : candProcess c = .ok xs := by
  unfold candProcess parsedOf
  rw [h]
  rfl

/-! ### Claim C8 -/

/-- Claim C8: for an input whose de-fenced candidate fails the direct JSON
parse and holds no brace-delimited substring (in particular empty,
whitespace-only or pure-prose text), the processing ends in the
no-JSON-objects error and the displayed raw text is the original answer,
verbatim. -/
theorem c8_unparsable_raw (t c : List Char) (h1 : deFence t = .ok c)
    (h2 : json_loads c = none) (h3 : findObjects c = []) :
    processAnswer t = .procError .noJsonObjects t := by
  have hnorm : normalizeData t = .error .noJsonObjects := by
    rw [normalizeData_of_deFence h1]
    unfold candProcess parsedOf
    rw [h2, h3]
  unfold processAnswer
  rw [hnorm]

theorem c8_witness :
    processAnswer "I\x27m not sure.".data =
      .procError .noJsonObjects "I\x27m not sure.".data ∧
    processAnswer [] = .procError .noJsonObjects [] ∧
    processAnswer "   ".data = .procError .noJsonObjects "   ".data :=
  ⟨c8_unparsable_raw "I\x27m not sure.".data "I\x27m not sure.".data rfl rfl rfl,
   c8_unparsable_raw [] [] rfl rfl rfl,
   c8_unparsable_raw "   ".data [] rfl rfl rfl⟩

/-! ### Claim C10 -/

/-- Claim C10: when the stripped answer is fenced, the fence split yields
at least three parts, the de-fenced part starts with the case-insensitive
`json` tag, and that part holds no line break at all, the tag strip
indexes past the end of `split("\n", 1)`; normalization never reaches a
parse attempt and the submission ends in the generic processing-error
path with the raw answer displayed. -/
theorem c10_tag_strip_newline (t q p1 : List Char) (rest : List (List Char))
    (hf : isPre fence3 (pyStrip t) = true)
    (hsp : splitOn3 bq bq bq (pyStrip t) = q :: p1 :: rest)
    (hrest : rest ≠ [])
    (htag : isPre jsonTok (lowerAll (pyStrip p1)) = true)
    (hnl : '\n' ∉ pyStrip p1) :
    processAnswer t = .procError .indexError t := by
  have hafter : afterFirstNl (pyStrip p1) = none :=
    afterFirstNl_none_of_not_mem hnl
  have hdf : deFence t = .error .indexError := by
    unfold deFence
    rw [hf, hsp]
    cases rest with
    | nil => exact absurd rfl hrest
    | cons r0 rs => simp [htag, hafter]
  unfold processAnswer normalizeData
  rw [hdf]

theorem c10_witness :
    processAnswer "```json \x7b\"a\": 1\x7d```".data =
      .procError .indexError "```json \x7b\"a\": 1\x7d```".data :=
  c10_tag_strip_newline "```json \x7b\"a\": 1\x7d```".data []
    "json \x7b\"a\": 1\x7d".data [[]] rfl rfl (by decide) rfl (by decide)

/-! ### Claim C2 -/

/-- Claim C2 counterexample: a response with two standalone objects where
one object fails its individual parse.  The claim predicts that the bad
object is skipped and one record is returned; the code instead aborts the
whole batch with the JSON-decode error of the list comprehension. -/
theorem c2_abort_counterexample :
    json_loads (pyStrip "x \x7b\"A\": \"1\"\x7d y \x7bbad\x7d z".data) = none ∧
    findObjects (pyStrip "x \x7b\"A\": \"1\"\x7d y \x7bbad\x7d z".data) =
      ["\x7b\"A\": \"1\"\x7d".data, "\x7bbad\x7d".data] ∧
    json_loads "\x7b\"A\": \"1\"\x7d".data =
      some (.jobj [("A".data, .jstr "1".data)]) ∧
    normalizeData "x \x7b\"A\": \"1\"\x7d y \x7bbad\x7d z".data =
      .error .jsonDecodeError :=
  ⟨rfl, rfl, rfl, rfl⟩

/-- Claim C2, amended: when direct parse of the candidate fails, the
fallback extracts the standalone objects and returns one record per
object, provided every extracted object parses individually; a single
failing object fails the whole batch (see the counterexample). -/
theorem c2_fallback_extraction (ans c : List Char) (os : List (List Char))
    (vs : List JVal) (h1 : deFence ans = .ok c) (h2 : json_loads c = none)
    (h3 : findObjects c = os) (h4 : os ≠ []) (h5 : parseAll os = some vs) :
    normalizeData ans = .ok vs := by
  rw [normalizeData_of_deFence h1]
  unfold candProcess parsedOf
  rw [h2, h3]
  cases os with
  | nil => exact absurd rfl h4
  | cons o ot =>
    simp only [h5]
    rfl

theorem c2_fallback_extraction_witness :
    normalizeData "Here \x7b\"a\": \"1\"\x7d and \x7b\"b\": \"2\"\x7d.".data =
      .ok [.jobj [("a".data, .jstr "1".data)],
        .jobj [("b".data, .jstr "2".data)]] :=
  c2_fallback_extraction "Here \x7b\"a\": \"1\"\x7d and \x7b\"b\": \"2\"\x7d.".data
    "Here \x7b\"a\": \"1\"\x7d and \x7b\"b\": \"2\"\x7d.".data
    ["\x7b\"a\": \"1\"\x7d".data, "\x7b\"b\": \"2\"\x7d".data]
    [.jobj [("a".data, .jstr "1".data)], .jobj [("b".data, .jstr "2".data)]]
    rfl rfl rfl (by decide) rfl

/-! ### Claim C1 -/

/-- Claim C1 counterexample: no record projection exists.  A parsed record
keeps an extra fourth key (`Extra` survives into the final record
sequence), and a non-mapping element (a bare string) is retained rather
than dropped. -/
theorem c1_no_projection_counterexample :
    normalizeData
      "[\x7b\"Adjuvant Name\": \"A\", \"Score\": \"1\", \"Insights\": \"I\", \"Extra\": \"x\"\x7d]".data =
      .ok [.jobj [("Adjuvant Name".data, .jstr "A".data),
        ("Score".data, .jstr "1".data), ("Insights".data, .jstr "I".data),
        ("Extra".data, .jstr "x".data)]] ∧
    "Extra".data ∈ keysOf (.jobj [("Adjuvant Name".data, .jstr "A".data),
        ("Score".data, .jstr "1".data), ("Insights".data, .jstr "I".data),
        ("Extra".data, .jstr "x".data)]) ∧
    normalizeData "[\"x\"]".data = .ok [.jstr "x".data] :=
  ⟨rfl, by decide, rfl⟩

/-- Claim C1, amended: the normalizer performs no projection at all; a
parsed array becomes the record sequence unchanged, with every element
keeping all of its keys and non-mapping elements retained. -/
theorem c1_pass_through (ans c : List Char) (xs : List JVal)
    (h1 : deFence ans = .ok c) (h2 : json_loads c = some (.jarr xs)) :
    normalizeData ans = .ok xs := by
  rw [normalizeData_of_deFence h1]
  exact candProcess_arr h2

theorem c1_pass_through_witness :
    normalizeData "[\x7b\"A\": 1, \"B\": 2\x7d, \"x\"]".data =
      .ok [.jobj [("A".data, .jnum "1".data), ("B".data, .jnum "2".data)],
        .jstr "x".data] :=
  c1_pass_through "[\x7b\"A\": 1, \"B\": 2\x7d, \"x\"]".data
    "[\x7b\"A\": 1, \"B\": 2\x7d, \"x\"]".data
    [.jobj [("A".data, .jnum "1".data), ("B".data, .jnum "2".data)],
      .jstr "x".data] rfl rfl

/-! ### Claim C6 -/

/-- Claim C6: a parsed single object with a list under the known
collection key `"Adjuvants"` is unwrapped to that list, and a single
object without such a list-valued key becomes a one-element record
sequence. -/
theorem c6_unwrap_adjuvants :
    (∀ (ans c : List Char) (fs : List (List Char × JVal)) (xs : List JVal),
      deFence ans = .ok c → json_loads c = some (.jobj fs) →
      dictGet adjuvantsKey fs = some (.jarr xs) →
      normalizeData ans = .ok xs) ∧
    (∀ (ans c : List Char) (fs : List (List Char × JVal)),
      deFence ans = .ok c → json_loads c = some (.jobj fs) →
      (∀ xs : List JVal, dictGet adjuvantsKey fs ≠ some (.jarr xs)) →
      normalizeData ans = .ok [.jobj fs]) := by
  have hshape : ∀ fs : List (List Char × JVal),
      normShape (.jobj fs) =
        (match dictGet adjuvantsKey fs with
         | some (.jarr xs) => Except.ok xs
         | _ => Except.ok [.jobj fs]) := fun _ => rfl
  constructor
  · intro ans c fs xs h1 h2 h3
    rw [normalizeData_of_deFence h1]
    unfold candProcess parsedOf
    rw [h2]
    show normShape (.jobj fs) = .ok xs
    rw [hshape, h3]
  · intro ans c fs h1 h2 h3
    rw [normalizeData_of_deFence h1]
    unfold candProcess parsedOf
    rw [h2]
    show normShape (.jobj fs) = .ok [.jobj fs]
    rw [hshape]
    cases hd : dictGet adjuvantsKey fs with
    | none => rfl
    | some v =>
      cases v with
      | jnull => rfl
      | jbool b => rfl
      | jnum n => rfl
      | jstr s => rfl
      | jobj fs2 => rfl
      | jarr xs => exact absurd hd (h3 xs)

theorem c6_witness :
    normalizeData
      "\x7b\"Adjuvants\": [\x7b\"Adjuvant Name\": \"MF59\", \"Score\": \"8\", \"Insights\": \"Strong efficacy, safe\"\x7d]\x7d".data =
      .ok [.jobj [("Adjuvant Name".data, .jstr "MF59".data),
        ("Score".data, .jstr "8".data),
        ("Insights".data, .jstr "Strong efficacy, safe".data)]] ∧
    normalizeData "\x7b\"Adjuvant Name\": \"X\"\x7d".data =
      .ok [.jobj [("Adjuvant Name".data, .jstr "X".data)]] :=
  ⟨c6_unwrap_adjuvants.1
      "\x7b\"Adjuvants\": [\x7b\"Adjuvant Name\": \"MF59\", \"Score\": \"8\", \"Insights\": \"Strong efficacy, safe\"\x7d]\x7d".data
      "\x7b\"Adjuvants\": [\x7b\"Adjuvant Name\": \"MF59\", \"Score\": \"8\", \"Insights\": \"Strong efficacy, safe\"\x7d]\x7d".data
      [("Adjuvants".data, .jarr [.jobj [("Adjuvant Name".data, .jstr "MF59".data),
        ("Score".data, .jstr "8".data),
        ("Insights".data, .jstr "Strong efficacy, safe".data)]])]
      [.jobj [("Adjuvant Name".data, .jstr "MF59".data),
        ("Score".data, .jstr "8".data),
        ("Insights".data, .jstr "Strong efficacy, safe".data)]]
      rfl rfl rfl,
   c6_unwrap_adjuvants.2 "\x7b\"Adjuvant Name\": \"X\"\x7d".data
      "\x7b\"Adjuvant Name\": \"X\"\x7d".data
      [("Adjuvant Name".data, .jstr "X".data)]
      rfl rfl (fun xs h => nomatch h)⟩

/-! ### Claim C9 -/

/-- Claim C9: a well-formed JSON array whose elements are objects with
exactly the three canonical keys passes through unchanged and in order,
whatever its length; the normalizer is transparent to count and never
truncates at 5. -/
theorem c9_array_pass_through (ans c : List Char) (xs : List JVal)
    (h1 : deFence ans = .ok c) (h2 : json_loads c = some (.jarr xs))
    (h3 : ∀ x ∈ xs, isCanonicalRecord x = true) :
    normalizeData ans = .ok xs := by
  rw [normalizeData_of_deFence h1]
  exact candProcess_arr h2

set_option maxRecDepth 8000 in
theorem c9_witness :
    normalizeData
      "[\x7b\"Adjuvant Name\": \"A1\", \"Score\": \"1\", \"Insights\": \"A\"\x7d, \x7b\"Adjuvant Name\": \"A2\", \"Score\": \"2\", \"Insights\": \"B\"\x7d, \x7b\"Adjuvant Name\": \"A3\", \"Score\": \"3\", \"Insights\": \"C\"\x7d, \x7b\"Adjuvant Name\": \"A4\", \"Score\": \"4\", \"Insights\": \"D\"\x7d, \x7b\"Adjuvant Name\": \"A5\", \"Score\": \"5\", \"Insights\": \"E\"\x7d, \x7b\"Adjuvant Name\": \"A6\", \"Score\": \"6\", \"Insights\": \"F\"\x7d]".data =
      .ok [.jobj [("Adjuvant Name".data, .jstr "A1".data), ("Score".data, .jstr "1".data), ("Insights".data, .jstr "A".data)],
        .jobj [("Adjuvant Name".data, .jstr "A2".data), ("Score".data, .jstr "2".data), ("Insights".data, .jstr "B".data)],
        .jobj [("Adjuvant Name".data, .jstr "A3".data), ("Score".data, .jstr "3".data), ("Insights".data, .jstr "C".data)],
        .jobj [("Adjuvant Name".data, .jstr "A4".data), ("Score".data, .jstr "4".data), ("Insights".data, .jstr "D".data)],
        .jobj [("Adjuvant Name".data, .jstr "A5".data), ("Score".data, .jstr "5".data), ("Insights".data, .jstr "E".data)],
        .jobj [("Adjuvant Name".data, .jstr "A6".data), ("Score".data, .jstr "6".data), ("Insights".data, .jstr "F".data)]] :=
  c9_array_pass_through _ _ _ rfl rfl (by decide)

/-! ### Claim C4 -/

/-- Claim C4 counterexample: with all five fields empty, the query string
is still built and the submission proceeds through retrieval, the model
call and normalization all the way to rendering - no incomplete-query
failure exists anywhere in the code. -/
theorem c4_no_validation_counterexample :
    buildUserQuery [] [] [] [] [] =
      "Vaccine Type:  | Adjuvant Properties:  | Study Filter:  | Pipeline:  | Clinical Phase: ".data ∧
    runSubmission [] [] [] [] [] true "[\x7b\"Adjuvant Name\": \"A\"\x7d]".data =
      .rendered [.jobj [("Adjuvant Name".data, .jstr "A".data)]] :=
  ⟨rfl, rfl⟩

/-- Claim C4, amended: the query encoding performs no validation at all;
with every field empty the pipeline still reaches the response-processing
stage, behaving exactly as with any other field values. -/
theorem c4_encode_never_fails (answer : List Char) :
    runSubmission [] [] [] [] [] true answer = processAnswer answer := rfl

/-! ### Claim C5 -/

/-- Claim C5 counterexample: a field value containing the delimiter text
makes the query decoding in `get_response` raise outside the try/except
block, so the error escapes the pipeline boundary uncaught instead of
being converted to a user-visible message. -/
theorem c5_uncaught_counterexample :
    runSubmission "A | B".data "p".data "s".data "q".data "c".data true
      "[\x7b\"Adjuvant Name\": \"A\"\x7d]".data = .uncaught .colonIndex :=
  rfl

/-- Claim C5, amended: the no-data condition and every normalization
error are caught and converted (the latter carrying the raw answer
verbatim), while prompt-composition failures happen before the try block
and escape uncaught; the incomplete-query error does not exist. -/
theorem c5_error_surfacing :
    (∀ (vt ap sf ps cp answer : List Char),
      runSubmission vt ap sf ps cp false answer = .noData) ∧
    (∀ (answer : List Char) (e : NormError), normalizeData answer = .error e →
      processAnswer answer = .procError e answer) ∧
    (∀ (vt ap sf ps cp answer : List Char) (e : DriverErr),
      composeFields (buildUserQuery vt ap sf ps cp) = .error e →
      runSubmission vt ap sf ps cp true answer = .uncaught e) := by
  refine ⟨?_, ?_, ?_⟩
  · intro vt ap sf ps cp answer
    rfl
  · intro answer e h
    unfold processAnswer
    rw [h]
  · intro vt ap sf ps cp answer e h
    unfold runSubmission
    rw [h]
    rfl

theorem c5_error_surfacing_witness :
    runSubmission "flu".data "p".data "s".data "q".data "c".data false
      "x".data = .noData ∧
    processAnswer "oops".data = .procError .noJsonObjects "oops".data ∧
    runSubmission "x | y".data "p".data "s".data "q".data "c".data true
      "[]".data = .uncaught .colonIndex :=
  ⟨c5_error_surfacing.1 "flu".data "p".data "s".data "q".data "c".data "x".data,
   c5_error_surfacing.2.1 "oops".data .noJsonObjects rfl,
   c5_error_surfacing.2.2 "x | y".data "p".data "s".data "q".data "c".data
     "[]".data .colonIndex rfl⟩

/-! ### Query decoding lemmas -/

theorem splitOn1_no_sep {a : Char} {xs : List Char} (h : ∀ x ∈ xs, x ≠ a) :
    splitOn1 a xs = [xs] := by
  conv_lhs => rw [← List.append_nil xs]
  rw [splitOn1_append a xs [] h]
  simp [consSeg, splitOn1]

theorem extractLabeled {name fld : List Char} (hname : ':' ∉ name)
    (hfld : ':' ∉ fld) :
    extractField (name ++ (':' :: ' ' :: fld)) = some (pyStrip fld) := by
  unfold extractField
  have hname' : ∀ x ∈ name, x ≠ ':' := fun x hx he => hname (he ▸ hx)
  rw [splitOn1_append ':' name _ hname', splitOn1_cons_sep]
  have hsp2 : ∀ x ∈ (' ' :: fld), x ≠ ':' := by
    intro x hx he
    rcases List.mem_cons.mp hx with h | h
    · subst he; exact absurd h (by decide)
    · exact hfld (he ▸ h)
  rw [splitOn1_no_sep hsp2]
  simp [consSeg, pyStrip_cons_ws (by decide : pyws ' ' = true)]

theorem splitFields_cons {seg R : List Char} (hseg : ∀ x ∈ seg, x ≠ '|') :
    splitOn3 ' ' '|' ' ' (seg ++ (' ' :: '|' :: ' ' :: R)) =
      seg :: splitOn3 ' ' '|' ' ' R := by
  have hok : okSeg ' ' '|' ' ' seg (' ' :: '|' :: ' ' :: R) = true :=
    okSeg_of_not_mem_mid ' ' '|' ' ' seg _ hseg (by simp [isPre])
  rw [splitOn3_append ' ' '|' ' ' seg _ hok, splitOn3_cons_sep]
  simp [consSeg]

theorem splitFields_last {seg : List Char} (hseg : ∀ x ∈ seg, x ≠ '|') :
    splitOn3 ' ' '|' ' ' seg = [seg] := by
  have hok : okSeg ' ' '|' ' ' seg [] = true :=
    okSeg_of_not_mem_mid ' ' '|' ' ' seg [] hseg rfl
  conv_lhs => rw [← List.append_nil seg]
  rw [splitOn3_append ' ' '|' ' ' seg [] hok]
  simp [consSeg, splitOn3]

/-! ### Claim C7 -/

/-- Claim C7 counterexample: a vaccine-type value containing a colon is
truncated at its first colon by `split(":")[1]` instead of being
recovered in full. -/
theorem c7_colon_truncation_counterexample :
    composeFields (buildUserQuery "flu: H1".data "p".data "s".data "q".data "c".data) =
      .ok ("flu".data, "p".data, "s".data, "q".data, "c".data) ∧
    "flu".data ≠ pyStrip "flu: H1".data :=
  ⟨rfl, by decide⟩

/-- Claim C7, amended: the composer splits on the field delimiter and on
every colon of each segment, taking the text between the first and second
colons, so colon-free field values are recovered (stripped) while values
containing a colon are truncated (see the counterexample); it fails with
the missing-fields error exactly when fewer than five segments are found
(and with a distinct index error when a segment lacks a colon). -/
theorem c7_compose_decode :
    (∀ (vt ap sf ps cp : List Char),
      '|' ∉ vt → ':' ∉ vt → '|' ∉ ap → ':' ∉ ap → '|' ∉ sf → ':' ∉ sf →
      '|' ∉ ps → ':' ∉ ps → '|' ∉ cp → ':' ∉ cp →
      composeFields (buildUserQuery vt ap sf ps cp) =
        .ok (pyStrip vt, pyStrip ap, pyStrip sf, pyStrip ps, pyStrip cp)) ∧
    (∀ uq : List Char, (splitOn3 ' ' '|' ' ' uq).length < 5 →
      composeFields uq = .error .fieldsMissing) := by
  constructor
  · intro vt ap sf ps cp hv1 hv2 ha1 ha2 hs1 hs2 hp1 hp2 hc1 hc2
    have mkseg : ∀ (L f : List Char), (∀ x ∈ L, x ≠ '|') → '|' ∉ f →
        ∀ x ∈ L ++ f, x ≠ '|' := by
      intro L f hL hf x hx
      rcases List.mem_append.mp hx with h | h
      · exact hL x h
      · exact fun he => hf (he ▸ h)
    have hq : buildUserQuery vt ap sf ps cp =
        ("Vaccine Type: ".data ++ vt) ++ (' ' :: '|' :: ' ' ::
          (("Adjuvant Properties: ".data ++ ap) ++ (' ' :: '|' :: ' ' ::
            (("Study Filter: ".data ++ sf) ++ (' ' :: '|' :: ' ' ::
              (("Pipeline: ".data ++ ps) ++ (' ' :: '|' :: ' ' ::
                ("Clinical Phase: ".data ++ cp)))))))) := by
      simp [buildUserQuery,
        show " | Adjuvant Properties: ".data =
          ' ' :: '|' :: ' ' :: "Adjuvant Properties: ".data from rfl,
        show " | Study Filter: ".data =
          ' ' :: '|' :: ' ' :: "Study Filter: ".data from rfl,
        show " | Pipeline: ".data =
          ' ' :: '|' :: ' ' :: "Pipeline: ".data from rfl,
        show " | Clinical Phase: ".data =
          ' ' :: '|' :: ' ' :: "Clinical Phase: ".data from rfl]
    have hsp : splitOn3 ' ' '|' ' ' (buildUserQuery vt ap sf ps cp) =
        [("Vaccine Type: ".data ++ vt), ("Adjuvant Properties: ".data ++ ap),
         ("Study Filter: ".data ++ sf), ("Pipeline: ".data ++ ps),
         ("Clinical Phase: ".data ++ cp)] := by
      rw [hq]
      rw [splitFields_cons (mkseg _ _ (by decide) hv1)]
      rw [splitFields_cons (mkseg _ _ (by decide) ha1)]
      rw [splitFields_cons (mkseg _ _ (by decide) hs1)]
      rw [splitFields_cons (mkseg _ _ (by decide) hp1)]
      rw [splitFields_last (mkseg _ _ (by decide) hc1)]
    have hex : ∀ (nm f : List Char), ':' ∉ nm → ':' ∉ f →
        extractField ((nm ++ [':', ' ']) ++ f) = some (pyStrip f) := by
      intro nm f hnm hf
      rw [List.append_assoc]
      exact extractLabeled hnm hf
    have he0 : extractField ("Vaccine Type: ".data ++ vt) = some (pyStrip vt) := by
      rw [show ("Vaccine Type: ".data : List Char) =
        "Vaccine Type".data ++ [':', ' '] from rfl]
      exact hex "Vaccine Type".data vt (by decide) hv2
    have he1 : extractField ("Adjuvant Properties: ".data ++ ap) = some (pyStrip ap) := by
      rw [show ("Adjuvant Properties: ".data : List Char) =
        "Adjuvant Properties".data ++ [':', ' '] from rfl]
      exact hex "Adjuvant Properties".data ap (by decide) ha2
    have he2 : extractField ("Study Filter: ".data ++ sf) = some (pyStrip sf) := by
      rw [show ("Study Filter: ".data : List Char) =
        "Study Filter".data ++ [':', ' '] from rfl]
      exact hex "Study Filter".data sf (by decide) hs2
    have he3 : extractField ("Pipeline: ".data ++ ps) = some (pyStrip ps) := by
      rw [show ("Pipeline: ".data : List Char) =
        "Pipeline".data ++ [':', ' '] from rfl]
      exact hex "Pipeline".data ps (by decide) hp2
    have he4 : extractField ("Clinical Phase: ".data ++ cp) = some (pyStrip cp) := by
      rw [show ("Clinical Phase: ".data : List Char) =
        "Clinical Phase".data ++ [':', ' '] from rfl]
      exact hex "Clinical Phase".data cp (by decide) hc2
    unfold composeFields
    rw [hsp]
    simp only [he0, he1, he2, he3, he4]
  · intro uq hlen
    unfold composeFields
    rcases hsp : splitOn3 ' ' '|' ' ' uq with _ | ⟨a0, _ | ⟨a1, _ | ⟨a2, _ | ⟨a3, _ | ⟨a4, rest⟩⟩⟩⟩⟩
    · rfl
    · rfl
    · rfl
    · rfl
    · rfl
    · rw [hsp] at hlen
      simp at hlen
      omega

theorem c7_compose_decode_witness :
    composeFields (buildUserQuery "flu".data " p ".data "s".data "q".data "c".data) =
      .ok ("flu".data, "p".data, "s".data, "q".data, "c".data) ∧
    composeFields "abc".data = .error .fieldsMissing := by
  constructor
  · have h := c7_compose_decode.1 "flu".data " p ".data "s".data "q".data "c".data
      (by decide) (by decide) (by decide) (by decide) (by decide)
      (by decide) (by decide) (by decide) (by decide) (by decide)
    exact h.trans rfl
  · exact c7_compose_decode.2 "abc".data (by decide)

/-! ### Claim C3 -/

/-- Claim C3 counterexample: a raw text whose trimmed form itself begins
with the token `json` normalizes fine unfenced, but its untagged fenced
wrapping is mistaken for a language tag, the tag strip raises, and the
fenced result differs from the unfenced one. -/
theorem c3_fence_counterexample :
    normalizeData "jsonish \x7b\"A\": \"1\"\x7d".data =
      .ok [.jobj [("A".data, .jstr "1".data)]] ∧
    "```\njsonish \x7b\"A\": \"1\"\x7d\n```".data =
      fenceNoTag "jsonish \x7b\"A\": \"1\"\x7d".data ∧
    normalizeData (fenceNoTag "jsonish \x7b\"A\": \"1\"\x7d".data) =
      .error .indexError ∧
    normalizeData "jsonish \x7b\"A\": \"1\"\x7d".data ≠
      normalizeData (fenceNoTag "jsonish \x7b\"A\": \"1\"\x7d".data) := by
  have h1 : normalizeData "jsonish \x7b\"A\": \"1\"\x7d".data =
      .ok [.jobj [("A".data, .jstr "1".data)]] := rfl
  have h2 : normalizeData (fenceNoTag "jsonish \x7b\"A\": \"1\"\x7d".data) =
      .error .indexError := rfl
  refine ⟨h1, rfl, h2, ?_⟩
  intro h
  rw [h1, h2] at h
  exact Except.noConfusion h

/-- Claim C3, amended: fencing-invariance holds for raw texts that do not
themselves contain the fence delimiter; the tagged wrapping additionally
needs the text to hold a non-whitespace character, and the untagged
wrapping needs the trimmed text not to begin with the case-insensitive
token `json` (see the counterexample for the latter). -/
theorem c3_fencing_invariance (t : List Char) (hnt : noTrip bq bq bq t = true) :
    (pyRstrip t ≠ [] → normalizeData (fenceTag t) = normalizeData t) ∧
    (isPre jsonTok (lowerAll (pyStrip t)) = false →
      normalizeData (fenceNoTag t) = normalizeData t) := by
  constructor
  · intro hne
    rw [normalizeData_of_deFence (deFence_fenceTag hnt hne),
      normalizeData_of_deFence (deFence_plain hnt)]
  · intro hjson
    rw [normalizeData_of_deFence (deFence_fenceNoTag hnt hjson),
      normalizeData_of_deFence (deFence_plain hnt)]

theorem c3_fencing_invariance_witness :
    normalizeData (fenceTag "[\x7b\"a\": 1\x7d]".data) =
      normalizeData "[\x7b\"a\": 1\x7d]".data ∧
    normalizeData (fenceNoTag "[\x7b\"a\": 1\x7d]".data) =
      normalizeData "[\x7b\"a\": 1\x7d]".data :=
  ⟨(c3_fencing_invariance "[\x7b\"a\": 1\x7d]".data (by decide)).1 (by decide),
   (c3_fencing_invariance "[\x7b\"a\": 1\x7d]".data (by decide)).2 (by decide)⟩
